import Mathlib

/-!
Shallow embedding of the repository layer of the tgram FundBot
(`app/repo.py` over the SQLAlchemy models of `app/models.py`).

The database is modelled as an explicit `DBState` value holding the rows of
the three tables (`users`, `campaigns`, `campaign_members`) together with the
autoincrement counters for the two surrogate primary keys.  Each repository
function becomes a pure function from a state (plus its arguments) to its
return value and the successor state.  `datetime.now(timezone.utc)` is
modelled by an explicit clock argument `now : Nat` where the source reads the
clock.  Python truthiness of an optional string (`None` and `""` are falsy)
is captured by `optNonEmpty`.
-/

/-- Row of the `users` table (`app/models.py`, class `User`).  `created_at`
ordering is represented by the position of the row in `DBState.users`. -/
structure User where
  id : Int
  username : Option String
  full_name : Option String
  is_financier : Bool
deriving DecidableEq, Repr

/-- Row of the `campaigns` table (`app/models.py`, class `Campaign`). -/
structure Campaign where
  id : Nat
  title : String
  total_amount : Int
  per_user_amount : Int
  created_by : Int
  is_active : Bool
deriving DecidableEq, Repr

/-- Row of the `campaign_members` table (`app/models.py`,
class `CampaignMember`). -/
structure CampaignMember where
  id : Nat
  campaign_id : Nat
  user_id : Int
  has_paid : Bool
  paid_at : Option Nat
deriving DecidableEq, Repr

/-- The whole database: the three tables in insertion order plus the
autoincrement counters for `campaigns.id` and `campaign_members.id`. -/
structure DBState where
  users : List User
  campaigns : List Campaign
  members : List CampaignMember
  nextCampaignId : Nat
  nextMemberId : Nat
deriving DecidableEq, Repr

/-- The empty database (fresh schema). -/
def DBState.empty : DBState :=
  { users := [], campaigns := [], members := [], nextCampaignId := 1, nextMemberId := 1 }

/-- Python truthiness of an `Optional[str]`: `None` and `""` are falsy. -/
def optNonEmpty : Option String → Bool
  | none => false
  | some s => !s.isEmpty

/-- Replace the first element satisfying `p` by its image under `f`
(the ORM mutates the single row loaded by a primary-key/unique lookup). -/
def replaceFirst (p : α → Bool) (f : α → α) : List α → List α
  | [] => []
  | x :: xs => if p x then f x :: xs else x :: replaceFirst p f xs

/-- `SELECT * FROM users WHERE id = tg` (primary-key lookup). -/
def userById (st : DBState) (tg : Int) : Option User :=
  st.users.find? (fun u => u.id == tg)

/-- `upsert_user` (`app/repo.py` lines 21-45): insert a new user, or update
username unconditionally, full name only if previously falsy and the new
value truthy, and promote (never demote) the financier flag. -/
def upsert_user (st : DBState) (tg : Int) (username full_name : Option String)
    (financiers : List Int) : User × DBState :=
  match userById st tg with
  | none =>
      let u : User := { id := tg, username := username, full_name := full_name,
                        is_financier := financiers.contains tg }
      (u, { st with users := st.users ++ [u] })
  | some u =>
      let u' : User := { u with
        username := username,
        full_name := if optNonEmpty full_name && !optNonEmpty u.full_name then
            full_name
          else u.full_name,
        is_financier := u.is_financier || financiers.contains tg }
      (u', { st with users := replaceFirst (fun v => v.id == tg) (fun _ => u') st.users })

/-- `list_user_ids` (`app/repo.py` lines 53-56):
`SELECT users.id ORDER BY users.id`. -/
def list_user_ids (st : DBState) : List Int :=
  List.insertionSort (· ≤ ·) (st.users.map (fun u => u.id))

/-- `create_campaign` (`app/repo.py` lines 59-82): snapshot the roster,
exclude the creator, compute the ceiling share with `n = max(len, 1)`,
insert the campaign row (active) and one member row per participant.
Integer division is Python floor division, i.e. `Int.fdiv`. -/
def create_campaign (st : DBState) (title : String) (total_amount : Int)
    (creator_id : Int) : Campaign × List Int × Int × DBState :=
  let user_ids := (list_user_ids st).filter (fun uid => uid != creator_id)
  let n : Nat := max user_ids.length 1
  let per_user : Int := (total_amount + n - 1).fdiv n
  let camp : Campaign := { id := st.nextCampaignId, title := title,
                           total_amount := total_amount, per_user_amount := per_user,
                           created_by := creator_id, is_active := true }
  let newMembers : List CampaignMember := user_ids.enum.map (fun p =>
    { id := st.nextMemberId + p.1, campaign_id := camp.id, user_id := p.2,
      has_paid := false, paid_at := none })
  (camp, user_ids, per_user,
    { st with campaigns := st.campaigns ++ [camp],
              members := st.members ++ newMembers,
              nextCampaignId := st.nextCampaignId + 1,
              nextMemberId := st.nextMemberId + user_ids.length })

/-- The `WHERE campaign_id = cid AND user_id = uid` predicate on member rows. -/
def memberMatch (cid : Nat) (uid : Int) (m : CampaignMember) : Bool :=
  m.campaign_id == cid && m.user_id == uid

/-- `toggle_payment` (`app/repo.py` lines 85-98): look up the member row for
`(campaign_id, user_id)`; if absent return `false` without touching the
state, otherwise set `has_paid := mark` and the timestamp accordingly and
return `true`. -/
def toggle_payment (st : DBState) (campaign_id : Nat) (user_id : Int)
    (mark : Bool) (now : Nat) : Bool × DBState :=
  match st.members.find? (memberMatch campaign_id user_id) with
  | none => (false, st)
  | some _ =>
      let upd : CampaignMember → CampaignMember := fun m =>
        { m with has_paid := mark, paid_at := if mark then some now else none }
      (true, { st with
        members := replaceFirst (memberMatch campaign_id user_id) upd st.members })

/-- One step of `ORDER BY id DESC ... scalar()` over active campaigns:
keep the row with the greater id (first one on a tie). -/
def newerActive (acc : Option Campaign) (c : Campaign) : Option Campaign :=
  match acc with
  | none => some c
  | some b => if b.id < c.id then some c else some b

/-- `get_active_campaign` (`app/repo.py` lines 124-126): the active campaign
with the greatest id, or `none`. -/
def get_active_campaign (st : DBState) : Option Campaign :=
  (st.campaigns.filter (fun c => c.is_active)).foldl newerActive none

/-- `close_active_campaign` (`app/repo.py` lines 129-140): if an active
campaign exists, clear its `is_active` flag and return `true`. -/
def close_active_campaign (st : DBState) : Bool × DBState :=
  match get_active_campaign st with
  | none => (false, st)
  | some camp =>
      (true, { st with campaigns := st.campaigns.map (fun c =>
        if c.id == camp.id then { c with is_active := false } else c) })

/-- `user_status` (`app/repo.py` lines 143-158): resolve the active campaign
first; with none, everything is `None`.  Otherwise fetch membership and user
row, and expose `per_user_amount` only when a membership exists. -/
def user_status (st : DBState) (user_id : Int) :
    Option Campaign × Option CampaignMember × Option User × Option Int :=
  match get_active_campaign st with
  | none => (none, none, none, none)
  | some camp =>
      let cm := st.members.find? (memberMatch camp.id user_id)
      let user := userById st user_id
      (some camp, cm, user, if cm.isSome then some camp.per_user_amount else none)

/-- A registration event as the handlers feed it to `upsert_user`. -/
structure RegEvent where
  tg : Int
  username : Option String
  full_name : Option String
  financiers : List Int
deriving DecidableEq, Repr

/-- Apply a sequence of registration events. -/
def applyEvents (st : DBState) (evs : List RegEvent) : DBState :=
  evs.foldl (fun s e => (upsert_user s e.tg e.username e.full_name e.financiers).2) st

/-- A state transformer never turns an inactive campaign row active again:
any row of the successor state sharing the id of an inactive row stays
inactive (under the usual key invariants: distinct campaign ids, all of
them below the autoincrement counter). -/
def preservesInactive (f : DBState → DBState) : Prop :=
  ∀ st : DBState, (st.campaigns.map (fun c => c.id)).Nodup →
    (∀ c ∈ st.campaigns, c.id < st.nextCampaignId) →
    ∀ c ∈ st.campaigns, c.is_active = false →
      ∀ c' ∈ (f st).campaigns, c'.id = c.id → c'.is_active = false

/-! ### Helper states for concrete evaluations -/

/-- A bare participant record. -/
def mkUser (i : Int) : User :=
  { id := i, username := none, full_name := none, is_financier := false }

/-- Three registered participants, no campaign yet. -/
def st3 : DBState := { DBState.empty with users := [mkUser 1, mkUser 2, mkUser 3] }

/-- An active campaign row with id 1. -/
def campW1 : Campaign :=
  { id := 1, title := "w1", total_amount := 10, per_user_amount := 5,
    created_by := 9, is_active := true }

/-- An active campaign row with id 2. -/
def campW2 : Campaign :=
  { id := 2, title := "w2", total_amount := 20, per_user_amount := 10,
    created_by := 9, is_active := true }

/-- Two users and a single active campaign. -/
def stOneActive : DBState :=
  { users := [mkUser 1, mkUser 2], campaigns := [campW1], members := [],
    nextCampaignId := 2, nextMemberId := 1 }

/-- Two simultaneously active campaigns (the invariant-violating state). -/
def stTwoActive : DBState :=
  { users := [mkUser 1, mkUser 2], campaigns := [campW1, campW2], members := [],
    nextCampaignId := 3, nextMemberId := 1 }

/-- A membership row of campaign 1 for user 2. -/
def rowT : CampaignMember :=
  { id := 1, campaign_id := 1, user_id := 2, has_paid := false, paid_at := none }

/-- One campaign with one membership row. -/
def stMember : DBState :=
  { users := [], campaigns := [campW1], members := [rowT],
    nextCampaignId := 2, nextMemberId := 2 }

/-- A user who already carries a full name. -/
def uAlice : User :=
  { id := 5, username := some "h", full_name := some "Alice", is_financier := false }

/-- A database whose only user already has a name. -/
def stNamed : DBState := { DBState.empty with users := [uAlice] }

/-- A user already flagged as financier. -/
def uFin : User :=
  { id := 5, username := none, full_name := none, is_financier := true }

/-- A database whose only user is a financier. -/
def stFin : DBState := { DBState.empty with users := [uFin] }

/-- A user row plus one inactive campaign: no active campaign exists. -/
def stInactive : DBState :=
  { users := [uAlice], campaigns := [{ campW1 with is_active := false }], members := [],
    nextCampaignId := 2, nextMemberId := 1 }

/-- A user with a stored handle, for the handle-overwrite witness. -/
def uOld : User :=
  { id := 7, username := some "old", full_name := none, is_financier := false }

/-- A database whose only user has a stored handle. -/
def stOld : DBState := { DBState.empty with users := [uOld] }

/-! ### Generic list lemmas -/

theorem find?_append_some {p : α → Bool} :
    ∀ {l₁ : List α} (l₂ : List α) {a : α}, l₁.find? p = some a →
      (l₁ ++ l₂).find? p = some a := by
  intro l₁
  induction l₁ with
  | nil => intro l₂ a h; simp [List.find?] at h
  | cons x xs ih =>
    intro l₂ a h
    by_cases hx : p x
    · rw [List.find?_cons_of_pos _ hx] at h
      rw [List.cons_append, List.find?_cons_of_pos _ hx]
      exact h
    · rw [List.find?_cons_of_neg _ hx] at h
      rw [List.cons_append, List.find?_cons_of_neg _ hx]
      exact ih l₂ h

theorem find?_append_of_forall_neg {p : α → Bool} :
    ∀ (pre : List α), (∀ b ∈ pre, p b = false) →
      ∀ (x : α) (rest : List α), p x = true →
        (pre ++ x :: rest).find? p = some x := by
  intro pre
  induction pre with
  | nil => intro _ x rest hx; simp [List.find?_cons_of_pos _ hx]
  | cons y ys ih =>
    intro hpre x rest hx
    have hy : ¬ p y = true := by simp [hpre y (List.mem_cons_self y ys)]
    rw [List.cons_append, List.find?_cons_of_neg _ hy]
    exact ih (fun b hb => hpre b (List.mem_cons_of_mem _ hb)) x rest hx

theorem nodup_key_inj {α β : Type _} (g : α → β) :
    ∀ {l : List α}, (l.map g).Nodup →
      ∀ a ∈ l, ∀ b ∈ l, g a = g b → a = b := by
  intro l
  induction l with
  | nil => simp
  | cons x xs ih =>
    intro h a ha b hb hg
    rw [List.map_cons, List.nodup_cons] at h
    rcases List.mem_cons.mp ha with rfl | ha'
    · rcases List.mem_cons.mp hb with rfl | hb'
      · rfl
      · exact absurd (hg ▸ List.mem_map_of_mem g hb') h.1
    · rcases List.mem_cons.mp hb with rfl | hb'
      · exact absurd (hg ▸ List.mem_map_of_mem g ha') h.1
      · exact ih h.2 a ha' b hb' hg

/-! ### `replaceFirst` lemmas -/

theorem replaceFirst_decomp (p : α → Bool) (f : α → α) :
    ∀ {l : List α} {a : α}, l.find? p = some a →
      ∃ pre post, l = pre ++ a :: post ∧ (∀ b ∈ pre, p b = false) ∧
        replaceFirst p f l = pre ++ f a :: post := by
  intro l
  induction l with
  | nil => intro a h; simp [List.find?] at h
  | cons x xs ih =>
    intro a h
    by_cases hx : p x
    · rw [List.find?_cons_of_pos _ hx] at h
      obtain rfl : x = a := by injection h
      exact ⟨[], xs, rfl, by simp, by simp [replaceFirst, hx]⟩
    · rw [List.find?_cons_of_neg _ hx] at h
      obtain ⟨pre, post, hl, hpre, hrep⟩ := ih h
      refine ⟨x :: pre, post, by rw [hl]; rfl, ?_, ?_⟩
      · intro b hb
        rcases List.mem_cons.mp hb with rfl | hb'
        · exact Bool.eq_false_iff.mpr hx
        · exact hpre b hb'
      · simp [replaceFirst, hx, hrep]

theorem find?_replaceFirst_of_not (p q : α → Bool) (f : α → α)
    (hpq : ∀ x, p x = true → q x = false ∧ q (f x) = false) :
    ∀ l : List α, (replaceFirst p f l).find? q = l.find? q := by
  intro l
  induction l with
  | nil => rfl
  | cons x xs ih =>
    by_cases hx : p x
    · have hq := hpq x hx
      simp only [replaceFirst, if_pos hx]
      rw [List.find?_cons_of_neg _ (by simp [hq.2]),
          List.find?_cons_of_neg _ (by simp [hq.1])]
    · simp only [replaceFirst, if_neg hx]
      by_cases hqx : q x
      · rw [List.find?_cons_of_pos _ hqx, List.find?_cons_of_pos _ hqx]
      · rw [List.find?_cons_of_neg _ hqx, List.find?_cons_of_neg _ hqx]
        exact ih

theorem find?_replaceFirst_self (p : α → Bool) (f : α → α) {l : List α} {a : α}
    (h : l.find? p = some a) (hf : p (f a) = true) :
    (replaceFirst p f l).find? p = some (f a) := by
  obtain ⟨pre, post, _, hpre, hrep⟩ := replaceFirst_decomp p f h
  rw [hrep]
  exact find?_append_of_forall_neg pre hpre (f a) post hf

/-! ### `newerActive` fold lemmas -/

theorem foldl_newerActive_mem :
    ∀ (l : List Campaign) (acc : Option Campaign) (c : Campaign),
      l.foldl newerActive acc = some c → acc = some c ∨ c ∈ l := by
  intro l
  induction l with
  | nil => intro acc c h; exact Or.inl h
  | cons x xs ih =>
    intro acc c h
    rcases ih (newerActive acc x) c h with h' | h'
    · cases acc with
      | none =>
        simp only [newerActive] at h'
        exact Or.inr (List.mem_cons.mpr (Or.inl (Option.some.inj h').symm))
      | some b =>
        simp only [newerActive] at h'
        by_cases hb : b.id < x.id
        · rw [if_pos hb] at h'
          exact Or.inr (List.mem_cons.mpr (Or.inl (Option.some.inj h').symm))
        · rw [if_neg hb] at h'
          exact Or.inl h'
    · exact Or.inr (List.mem_cons_of_mem _ h')

theorem foldl_newerActive_le :
    ∀ (l : List Campaign) (acc : Option Campaign) (c : Campaign),
      l.foldl newerActive acc = some c →
      (∀ b, acc = some b → b.id ≤ c.id) ∧ (∀ d ∈ l, d.id ≤ c.id) := by
  intro l
  induction l with
  | nil =>
    intro acc c h
    refine ⟨fun b hb => ?_, by simp⟩
    rw [hb] at h
    rw [Option.some.inj h]
  | cons x xs ih =>
    intro acc c h
    obtain ⟨hacc, hxs⟩ := ih (newerActive acc x) c h
    have hstep : ∀ b, newerActive acc x = some b → x.id ≤ b.id ∧
        ∀ a, acc = some a → a.id ≤ b.id := by
      intro b hb
      cases acc with
      | none =>
        simp only [newerActive] at hb
        obtain rfl := Option.some.inj hb
        exact ⟨le_rfl, by simp⟩
      | some a =>
        simp only [newerActive] at hb
        by_cases ha : a.id < x.id
        · rw [if_pos ha] at hb
          obtain rfl := Option.some.inj hb
          refine ⟨le_rfl, fun a' ha' => ?_⟩
          rw [← Option.some.inj ha']
          exact le_of_lt ha
        · rw [if_neg ha] at hb
          obtain rfl := Option.some.inj hb
          refine ⟨le_of_not_lt ha, fun a' ha' => ?_⟩
          rw [← Option.some.inj ha']
    refine ⟨?_, ?_⟩
    · intro b hb
      rcases hval : newerActive acc x with _ | v
      · cases acc with
        | none => simp [newerActive] at hval
        | some a => simp only [newerActive] at hval; split at hval <;> simp at hval
      · exact le_trans ((hstep v hval).2 b hb) (hacc v hval)
    · intro d hd
      rcases List.mem_cons.mp hd with rfl | hd'
      · rcases hval : newerActive acc d with _ | v
        · cases acc with
          | none => simp [newerActive] at hval
          | some a => simp only [newerActive] at hval; split at hval <;> simp at hval
        · exact le_trans (hstep v hval).1 (hacc v hval)
      · exact hxs d hd'

theorem foldl_newerActive_ne_none :
    ∀ (l : List Campaign) (acc : Option Campaign),
      l.foldl newerActive acc = none → acc = none ∧ l = [] := by
  intro l
  induction l with
  | nil => intro acc h; exact ⟨h, rfl⟩
  | cons x xs ih =>
    intro acc h
    obtain ⟨hstep, _⟩ := ih (newerActive acc x) h
    cases acc with
    | none => simp [newerActive] at hstep
    | some b => simp only [newerActive] at hstep; split at hstep <;> simp at hstep

theorem foldl_newerActive_append_max (l : List Campaign) (c : Campaign)
    (h : ∀ d ∈ l, d.id < c.id) : (l ++ [c]).foldl newerActive none = some c := by
  rw [List.foldl_append]
  rcases hcase : l.foldl newerActive none with _ | b
  · simp [newerActive]
  · have hb : b ∈ l := by
      rcases foldl_newerActive_mem l none b hcase with h' | h'
      · exact absurd h' (by simp)
      · exact h'
    simp only [List.foldl_cons, List.foldl_nil, newerActive]
    rw [if_pos (h b hb)]

/-! ### `get_active_campaign` characterisation -/

theorem get_active_campaign_mem {st : DBState} {c : Campaign}
    (h : get_active_campaign st = some c) :
    c ∈ st.campaigns ∧ c.is_active = true := by
  unfold get_active_campaign at h
  rcases foldl_newerActive_mem _ none c h with h' | h'
  · exact absurd h' (by simp)
  · obtain ⟨hm, ha⟩ := List.mem_filter.mp h'
    exact ⟨hm, ha⟩

theorem get_active_campaign_greatest {st : DBState} {c : Campaign}
    (h : get_active_campaign st = some c) :
    ∀ d ∈ st.campaigns, d.is_active = true → d.id ≤ c.id := by
  unfold get_active_campaign at h
  intro d hd hact
  exact (foldl_newerActive_le _ none c h).2 d (List.mem_filter.mpr ⟨hd, hact⟩)

theorem get_active_campaign_none {st : DBState}
    (h : get_active_campaign st = none) :
    st.campaigns.filter (fun c => c.is_active) = [] := by
  unfold get_active_campaign at h
  exact (foldl_newerActive_ne_none _ none h).2

theorem get_active_campaign_of_filter_eq {st : DBState}
    (l : List Campaign) (c : Campaign)
    (hf : st.campaigns.filter (fun d => d.is_active) = l ++ [c])
    (hmax : ∀ d ∈ l, d.id < c.id) :
    get_active_campaign st = some c := by
  unfold get_active_campaign
  rw [hf]
  exact foldl_newerActive_append_max l c hmax

/-! ### Frame lemmas for the operations -/

theorem campaign_inactive_eta {c : Campaign} (h : c.is_active = false) :
    { c with is_active := false } = c := by
  cases c
  simp_all

theorem upsert_user_campaigns (st : DBState) (tg : Int)
    (un fn : Option String) (fin : List Int) :
    ((upsert_user st tg un fn fin).2).campaigns = st.campaigns := by
  unfold upsert_user
  cases userById st tg <;> rfl

theorem upsert_user_members (st : DBState) (tg : Int)
    (un fn : Option String) (fin : List Int) :
    ((upsert_user st tg un fn fin).2).members = st.members := by
  unfold upsert_user
  cases userById st tg <;> rfl

theorem toggle_payment_campaigns (st : DBState) (cid : Nat) (uid : Int)
    (mark : Bool) (now : Nat) :
    ((toggle_payment st cid uid mark now).2).campaigns = st.campaigns := by
  unfold toggle_payment
  cases st.members.find? (memberMatch cid uid) <;> rfl

theorem close_active_campaign_filter (st : DBState) {top : Campaign}
    (h : get_active_campaign st = some top) :
    ((close_active_campaign st).2).campaigns.filter (fun c => c.is_active) =
      st.campaigns.filter (fun c => c.is_active && !(c.id == top.id)) := by
  unfold close_active_campaign
  rw [h]
  show (st.campaigns.map fun c =>
      if c.id == top.id then { c with is_active := false } else c).filter
        (fun c => c.is_active) = _
  induction st.campaigns with
  | nil => rfl
  | cons x xs ih =>
    simp only [List.map_cons]
    by_cases hx : (x.id == top.id) = true
    · rw [if_pos hx]
      rw [List.filter_cons_of_neg (show ¬ (false = true) by simp)]
      rw [List.filter_cons_of_neg (p := fun c : Campaign => c.is_active && !(c.id == top.id))
        (show ¬ (x.is_active && !(x.id == top.id)) = true by rw [hx]; simp)]
      exact ih
    · have hxf : (x.id == top.id) = false := Bool.eq_false_iff.mpr hx
      rw [if_neg hx]
      by_cases hact : x.is_active = true
      · rw [List.filter_cons_of_pos hact,
            List.filter_cons_of_pos (p := fun c : Campaign => c.is_active && !(c.id == top.id))
              (show (x.is_active && !(x.id == top.id)) = true by rw [hact, hxf]; rfl)]
        rw [ih]
      · rw [List.filter_cons_of_neg hact,
            List.filter_cons_of_neg (p := fun c : Campaign => c.is_active && !(c.id == top.id))
              (show ¬ (x.is_active && !(x.id == top.id)) = true by simp [hact])]
        exact ih

theorem close_active_campaign_true {st : DBState}
    (h : (close_active_campaign st).1 = true) :
    ∃ top, get_active_campaign st = some top := by
  unfold close_active_campaign at h
  rcases hc : get_active_campaign st with _ | top
  · rw [hc] at h; simp at h
  · exact ⟨top, rfl⟩

/-! ### Arithmetic of the ceiling share -/

theorem ceil_div_bounds (t : Int) (ht : 0 ≤ t) (m : Nat) (hm : 1 ≤ m) :
    t ≤ (t + m - 1).fdiv m * m ∧ ((t + m - 1).fdiv m - 1) * m < t := by
  have hn : (0 : Int) < (m : Int) := by exact_mod_cast hm
  have hfd : (t + m - 1).fdiv m = (t + m - 1) / m :=
    Int.fdiv_eq_ediv _ (le_of_lt hn)
  have hdm := Int.ediv_add_emod (t + m - 1) m
  have hr0 : 0 ≤ (t + m - 1) % m := Int.emod_nonneg _ (ne_of_gt hn)
  have hrlt : (t + m - 1) % m < m := Int.emod_lt_of_pos _ hn
  have hc : (t + m - 1) / m * m = m * ((t + m - 1) / m) := mul_comm _ _
  have hs : ((t + m - 1) / m - 1) * m = (t + m - 1) / m * m - 1 * m := sub_mul _ _ _
  rw [hfd]
  constructor
  · linarith
  · linarith

/-- C1 counterexample: with roster `{1, 2, 3}`, creator 99 and
`total_amount = 1`, `create_campaign` yields `per_user_amount = 1` and
`n = 3` participants, and `1 * (3 - 1) = 2` is not `< 1`: the claimed
strict bound `per_user_amount * (n - 1) < total_amount` fails. -/
theorem create_campaign_minimal_surplus_cex :
    ¬ (1 ≤ (create_campaign st3 "t" 1 99).2.2.1 *
          ((max (create_campaign st3 "t" 1 99).2.1.length 1 : Nat) : Int) ∧
        (create_campaign st3 "t" 1 99).2.2.1 *
          (((max (create_campaign st3 "t" 1 99).2.1.length 1 : Nat) : Int) - 1) < 1) := by
  decide

/-- C1 (amended): for every state, `total_amount ≥ 0` and participant count
`n = max(len(participants), 1)`, the `per_user_amount` computed by
`create_campaign` satisfies `per_user_amount * n ≥ total_amount` and
`(per_user_amount - 1) * n < total_amount` (ceiling division: one unit less
per user would no longer cover the total). -/
theorem create_campaign_per_user_ceiling (st : DBState) (title : String)
    (total : Int) (creator : Int) (ht : 0 ≤ total) :
    total ≤ (create_campaign st title total creator).2.2.1 *
        ((max (create_campaign st title total creator).2.1.length 1 : Nat) : Int) ∧
    ((create_campaign st title total creator).2.2.1 - 1) *
        ((max (create_campaign st title total creator).2.1.length 1 : Nat) : Int) < total := by
  exact ceil_div_bounds total ht
    (max ((list_user_ids st).filter (fun uid => uid != creator)).length 1)
    (le_max_right _ _)

/-- Witness for the amended C1 at roster `{1, 2, 3}`, creator 99,
`total_amount = 7`: share is 3, `3 * 3 = 9 ≥ 7` and `2 * 3 = 6 < 7`. -/
theorem create_campaign_per_user_ceiling_witness :
    (0 : Int) ≤ 7 ∧
    (7 ≤ (create_campaign st3 "x" 7 99).2.2.1 *
        ((max (create_campaign st3 "x" 7 99).2.1.length 1 : Nat) : Int) ∧
    ((create_campaign st3 "x" 7 99).2.2.1 - 1) *
        ((max (create_campaign st3 "x" 7 99).2.1.length 1 : Nat) : Int) < 7) :=
  ⟨by decide, create_campaign_per_user_ceiling st3 "x" 7 99 (by decide)⟩

/-- C9: when no active campaign exists, `user_status` returns `none` for all
four components (campaign, membership, user record, per-user amount), even
when a `User` row for the identifier is present: the user lookup happens
only after an active campaign is found. -/
theorem user_status_no_active_campaign (st : DBState) (uid : Int)
    (h : get_active_campaign st = none) :
    user_status st uid = (none, none, none, none) := by
  unfold user_status
  rw [h]

/-- Witness for C9: a state with an inactive campaign and an existing user
row for id 5 still yields all-`none`. -/
theorem user_status_no_active_campaign_witness :
    userById stInactive 5 = some uAlice ∧
      user_status stInactive 5 = (none, none, none, none) :=
  ⟨by decide, user_status_no_active_campaign stInactive 5 (by decide)⟩

/-- The first match of the id predicate, after replacing it by a record with
the same id, is the replacement. -/
theorem userById_after_replace {st : DBState} {tg : Int} {u : User}
    (h : st.users.find? (fun v => v.id == tg) = some u) (u' : User)
    (hid : u'.id = u.id) :
    (replaceFirst (fun v => v.id == tg) (fun _ => u') st.users).find?
        (fun v => v.id == tg) = some u' := by
  have hu := List.find?_some h
  refine find?_replaceFirst_self _ _ h ?_
  show (u'.id == tg) = true
  rw [hid]
  exact hu

/-- C10: on an existing user, `register_or_update` overwrites the stored
handle unconditionally with the supplied value — including replacing a
present handle by an absent one — both in the returned record and in the
stored row. -/
theorem upsert_user_overwrites_username (st : DBState) (tg : Int)
    (un fn : Option String) (fin : List Int) (u : User)
    (h : userById st tg = some u) :
    ((upsert_user st tg un fn fin).1).username = un ∧
    ∃ u', userById ((upsert_user st tg un fn fin).2) tg = some u' ∧
      u'.username = un := by
  have hf : st.users.find? (fun v => v.id == tg) = some u := h
  unfold upsert_user
  rw [h]
  refine ⟨rfl, ?_⟩
  unfold userById
  exact ⟨_, userById_after_replace hf _ rfl, rfl⟩

/-- Witness for C10: user 7 carries handle `"old"`; a registration event
with no handle clears it to `none`. -/
theorem upsert_user_overwrites_username_witness :
    ((upsert_user stOld 7 none none []).1).username = none ∧
    ∃ u', userById ((upsert_user stOld 7 none none []).2) 7 = some u' ∧
      u'.username = none :=
  upsert_user_overwrites_username stOld 7 none none [] uOld (by decide)

/-- C6: the display name is updated only when the stored value is
empty/absent (Python-falsy) and the new value is non-empty; in particular
registering with no name, then `"Alice"`, then `"Bob"` leaves the stored
full name at `"Alice"` (first non-empty write wins). -/
theorem upsert_user_full_name_write_once :
    (∀ (st : DBState) (tg : Int) (un fn : Option String) (fin : List Int) (u : User),
        userById st tg = some u →
        ((upsert_user st tg un fn fin).1).full_name =
          (if optNonEmpty fn && !optNonEmpty u.full_name then fn else u.full_name)) ∧
    (((upsert_user (upsert_user (upsert_user DBState.empty 7 none none []).2
          7 none (some "Alice") []).2 7 none (some "Bob") []).1).full_name =
        some "Alice" ∧
      ∀ u ∈ ((upsert_user (upsert_user (upsert_user DBState.empty 7 none none []).2
          7 none (some "Alice") []).2 7 none (some "Bob") []).2).users,
        u.id = 7 → u.full_name = some "Alice") := by
  constructor
  · intro st tg un fn fin u h
    unfold upsert_user
    rw [h]
  · exact ⟨by decide, by decide⟩

/-- Witness for C6: a stored name `"Alice"` is kept when `"Bob"` arrives. -/
theorem upsert_user_full_name_write_once_witness :
    ((upsert_user stNamed 5 none (some "Bob") []).1).full_name =
      (if optNonEmpty (some "Bob") && !optNonEmpty uAlice.full_name then some "Bob"
       else uAlice.full_name) :=
  upsert_user_full_name_write_once.1 stNamed 5 none (some "Bob") [] uAlice (by decide)

/-- A single registration event keeps an existing financier a financier,
for every looked-up identifier. -/
theorem upsert_preserves_user_financier (st : DBState) (tg : Int)
    (un fn : Option String) (fin : List Int) (tg₀ : Int) (u : User)
    (h : userById st tg₀ = some u) (hfin : u.is_financier = true) :
    ∃ u', userById ((upsert_user st tg un fn fin).2) tg₀ = some u' ∧
      u'.is_financier = true := by
  unfold upsert_user
  cases hcase : userById st tg with
  | none =>
    refine ⟨u, ?_, hfin⟩
    unfold userById at h ⊢
    exact find?_append_some _ h
  | some v =>
    have hcf : st.users.find? (fun w => w.id == tg) = some v := hcase
    have hvid0 := List.find?_some hcf
    have hvid : (v.id == tg) = true := hvid0
    by_cases he : tg₀ = tg
    · have hv : v = u := by
        rw [he] at h
        rw [h] at hcase
        exact (Option.some.inj hcase).symm
      subst hv
      rw [he]
      let uNew : User := { v with username := un, full_name := if optNonEmpty fn && !optNonEmpty v.full_name then fn else v.full_name, is_financier := v.is_financier || fin.contains tg }
      refine ⟨uNew, ?_, ?_⟩
      · unfold userById
        exact userById_after_replace hcf _ rfl
      · show (v.is_financier || fin.contains tg) = true
        rw [hfin]
        exact Bool.true_or _
    · refine ⟨u, ?_, hfin⟩
      unfold userById at h ⊢
      rw [find?_replaceFirst_of_not _ _ _ ?_ st.users]
      · exact h
      · intro x hx
        have hxid : x.id = tg := beq_iff_eq.mp hx
        have hvtg : v.id = tg := beq_iff_eq.mp hvid
        constructor
        · exact beq_eq_false_iff_ne.mpr (by rw [hxid]; exact fun hc => he hc.symm)
        · show (v.id == tg₀) = false
          exact beq_eq_false_iff_ne.mpr (by rw [hvtg]; exact fun hc => he hc.symm)

/-- C7: a registration event sets the coordinator flag exactly to
`old || (identifier ∈ coordinator set)` on an existing user, initialises it
to the membership test on a fresh user, and consequently the flag is
monotone under every sequence of registration events: once true, it stays
true. -/
theorem upsert_user_financier_monotone :
    (∀ (st : DBState) (tg : Int) (un fn : Option String) (fin : List Int) (u : User),
        userById st tg = some u →
        ((upsert_user st tg un fn fin).1).is_financier =
          (u.is_financier || fin.contains tg)) ∧
    (∀ (st : DBState) (tg : Int) (un fn : Option String) (fin : List Int),
        userById st tg = none →
        ((upsert_user st tg un fn fin).1).is_financier = fin.contains tg) ∧
    (∀ (evs : List RegEvent) (st : DBState) (tg : Int) (u : User),
        userById st tg = some u → u.is_financier = true →
        ∃ u', userById (applyEvents st evs) tg = some u' ∧
          u'.is_financier = true) := by
  refine ⟨?_, ?_, ?_⟩
  · intro st tg un fn fin u h
    unfold upsert_user
    rw [h]
  · intro st tg un fn fin h
    unfold upsert_user
    rw [h]
  · intro evs
    induction evs with
    | nil => intro st tg u h hfin; exact ⟨u, h, hfin⟩
    | cons e es ih =>
      intro st tg u h hfin
      obtain ⟨u₁, h₁, hf₁⟩ :=
        upsert_preserves_user_financier st e.tg e.username e.full_name
          e.financiers tg u h hfin
      exact ih _ tg u₁ h₁ hf₁

/-- Witness for C7: user 5 is a financier; a registration event with an
empty coordinator set leaves the flag true. -/
theorem upsert_user_financier_monotone_witness :
    ∃ u', userById (applyEvents stFin [⟨5, some "n", some "x", []⟩]) 5 = some u' ∧
      u'.is_financier = true :=
  upsert_user_financier_monotone.2.2 [⟨5, some "n", some "x", []⟩] stFin 5 uFin
    (by decide) (by decide)

/-- C5: for every `(campaign_id, user_id)` pair: with no matching membership
row, `toggle_payment` returns `false` and leaves the state untouched; with a
(unique) matching row it returns `true` and rewrites exactly that row to
`paid = mark` with the timestamp set to the clock when `mark` is true and
cleared when `mark` is false — with no assumption on the row's previous
`paid` value, so toggling to the value already held still returns `true`
and still refreshes/clears the timestamp. -/
theorem toggle_payment_spec (st : DBState) (cid : Nat) (uid : Int)
    (mark : Bool) (now : Nat) :
    ((∀ m ∈ st.members, ¬(m.campaign_id = cid ∧ m.user_id = uid)) →
        toggle_payment st cid uid mark now = (false, st)) ∧
    (∀ cm ∈ st.members, cm.campaign_id = cid → cm.user_id = uid →
      (∀ m ∈ st.members, m.campaign_id = cid → m.user_id = uid → m = cm) →
        (toggle_payment st cid uid mark now).1 = true ∧
        ∃ pre post, st.members = pre ++ cm :: post ∧
          (∀ m ∈ pre, ¬(m.campaign_id = cid ∧ m.user_id = uid)) ∧
          ((toggle_payment st cid uid mark now).2).members =
            pre ++ { cm with has_paid := mark,
                             paid_at := if mark then some now else none } :: post ∧
          ((toggle_payment st cid uid mark now).2).campaigns = st.campaigns ∧
          ((toggle_payment st cid uid mark now).2).users = st.users) := by
  constructor
  · intro habs
    have hnone : st.members.find? (memberMatch cid uid) = none := by
      rw [List.find?_eq_none]
      intro m hm hmm
      obtain ⟨h1, h2⟩ := Bool.and_eq_true_iff.mp hmm
      exact habs m hm ⟨beq_iff_eq.mp h1, beq_iff_eq.mp h2⟩
    unfold toggle_payment
    rw [hnone]
  · intro cm hcm h1 h2 huniq
    have hmm : memberMatch cid uid cm = true := by
      unfold memberMatch
      rw [h1, h2]
      simp
    have hsome : st.members.find? (memberMatch cid uid) = some cm := by
      rcases hf : st.members.find? (memberMatch cid uid) with _ | m₀
      · rw [List.find?_eq_none] at hf
        exact absurd hmm (hf cm hcm)
      · have hm₀ := List.find?_some hf
        have hm₀mem := List.mem_of_find?_eq_some hf
        obtain ⟨hb1, hb2⟩ := Bool.and_eq_true_iff.mp hm₀
        rw [huniq m₀ hm₀mem (beq_iff_eq.mp hb1) (beq_iff_eq.mp hb2)]
    obtain ⟨pre, post, hsplit, hpre, hrep⟩ :=
      replaceFirst_decomp (memberMatch cid uid)
        (fun m => { m with has_paid := mark,
                           paid_at := if mark then some now else none }) hsome
    refine ⟨?_, pre, post, hsplit, ?_, ?_, ?_, ?_⟩
    · unfold toggle_payment
      rw [hsome]
    · intro m hm hand
      have : memberMatch cid uid m = true := by
        unfold memberMatch
        rw [hand.1, hand.2]
        simp
      rw [hpre m hm] at this
      exact Bool.false_ne_true this
    · show ((toggle_payment st cid uid mark now).2).members = _
      unfold toggle_payment
      rw [hsome]
      exact hrep
    · unfold toggle_payment
      rw [hsome]
    · unfold toggle_payment
      rw [hsome]

/-- Witness for C5: on the empty database the toggle fails and mutates
nothing, and on `stMember` the row of (campaign 1, user 2) is rewritten to
paid with timestamp 77 and the call returns `true`. -/
theorem toggle_payment_spec_witness :
    toggle_payment DBState.empty 1 2 true 0 = (false, DBState.empty) ∧
    (toggle_payment stMember 1 2 true 77).1 = true :=
  ⟨(toggle_payment_spec DBState.empty 1 2 true 0).1 (by decide),
   ((toggle_payment_spec stMember 1 2 true 77).2 rowT (by decide) rfl rfl
      (by decide)).1⟩

/-! ### Unfolding equations for `create_campaign` -/

theorem create_campaign_ids (st : DBState) (title : String) (amt : Int)
    (creator : Int) :
    (create_campaign st title amt creator).2.1 =
      (list_user_ids st).filter (fun uid => uid != creator) := rfl

theorem create_campaign_camp_id (st : DBState) (title : String) (amt : Int)
    (creator : Int) :
    (create_campaign st title amt creator).1.id = st.nextCampaignId := rfl

theorem create_campaign_camp_active (st : DBState) (title : String) (amt : Int)
    (creator : Int) :
    (create_campaign st title amt creator).1.is_active = true := rfl

theorem create_campaign_state_campaigns (st : DBState) (title : String)
    (amt : Int) (creator : Int) :
    ((create_campaign st title amt creator).2.2.2).campaigns =
      st.campaigns ++ [(create_campaign st title amt creator).1] := rfl

theorem create_campaign_members_eq (st : DBState) (title : String) (amt : Int)
    (creator : Int) :
    ((create_campaign st title amt creator).2.2.2).members =
      st.members ++ ((create_campaign st title amt creator).2.1).enum.map
        (fun p => { id := st.nextMemberId + p.1, campaign_id := st.nextCampaignId,
                    user_id := p.2, has_paid := false, paid_at := none }) := rfl

/-- C4: for every roster and creator, `create_campaign` creates membership
rows exactly for the roster identifiers other than the creator — never a
row for the creator — and returns that participant list in strictly
ascending order (roster ids are unique, being primary keys). -/
theorem create_campaign_members_spec (st : DBState)
    (hnd : (st.users.map (fun u => u.id)).Nodup)
    (title : String) (amt : Int) (creator : Int) :
    creator ∉ (create_campaign st title amt creator).2.1 ∧
    List.Sorted (· < ·) (create_campaign st title amt creator).2.1 ∧
    (∀ uid : Int, uid ∈ (create_campaign st title amt creator).2.1 ↔
      (uid ∈ st.users.map (fun u => u.id) ∧ uid ≠ creator)) ∧
    ∃ newRows : List CampaignMember,
      ((create_campaign st title amt creator).2.2.2).members =
        st.members ++ newRows ∧
      newRows.map (fun m => m.user_id) = (create_campaign st title amt creator).2.1 ∧
      ∀ m ∈ newRows, m.campaign_id = (create_campaign st title amt creator).1.id ∧
        m.has_paid = false ∧ m.paid_at = none := by
  have hperm := List.perm_insertionSort (· ≤ ·) (st.users.map (fun u => u.id))
  have hsortNd : (list_user_ids st).Nodup := hperm.symm.nodup hnd
  have hsorted : List.Sorted (· ≤ ·) (list_user_ids st) := by
    unfold list_user_ids
    exact List.sorted_insertionSort (· ≤ ·) (st.users.map (fun u => u.id))
  rw [create_campaign_ids]
  refine ⟨?_, ?_, ?_, ?_⟩
  · intro hmem
    have := (List.mem_filter.mp hmem).2
    simp at this
  · exact List.Sorted.lt_of_le (List.Pairwise.filter _ hsorted)
      (List.Nodup.filter _ hsortNd)
  · intro uid
    rw [List.mem_filter]
    unfold list_user_ids
    rw [hperm.mem_iff]
    constructor
    · rintro ⟨hm, hne⟩
      exact ⟨hm, by simpa using hne⟩
    · rintro ⟨hm, hne⟩
      exact ⟨hm, by simpa using hne⟩
  · refine ⟨((list_user_ids st).filter (fun uid => uid != creator)).enum.map
        (fun p => { id := st.nextMemberId + p.1, campaign_id := st.nextCampaignId,
                    user_id := p.2, has_paid := false, paid_at := none }), ?_, ?_, ?_⟩
    · rw [create_campaign_members_eq, create_campaign_ids]
    · rw [List.map_map]
      exact List.enum_map_snd _
    · intro m hm
      obtain ⟨p, _, rfl⟩ := List.mem_map.mp hm
      exact ⟨rfl, rfl, rfl⟩

/-- Witness for C4 on roster `{1, 2, 3}` with creator 3: participants are
`[1, 2]`, ascending, creator excluded. -/
theorem create_campaign_members_spec_witness :
    3 ∉ (create_campaign st3 "y" 9 3).2.1 ∧
    List.Sorted (· < ·) (create_campaign st3 "y" 9 3).2.1 ∧
    (∀ uid : Int, uid ∈ (create_campaign st3 "y" 9 3).2.1 ↔
      (uid ∈ st3.users.map (fun u => u.id) ∧ uid ≠ 3)) ∧
    ∃ newRows : List CampaignMember,
      ((create_campaign st3 "y" 9 3).2.2.2).members = st3.members ++ newRows ∧
      newRows.map (fun m => m.user_id) = (create_campaign st3 "y" 9 3).2.1 ∧
      ∀ m ∈ newRows, m.campaign_id = (create_campaign st3 "y" 9 3).1.id ∧
        m.has_paid = false ∧ m.paid_at = none :=
  create_campaign_members_spec st3 (by decide) "y" 9 3

/-- C3: `create_campaign` never touches the active flag of any existing
campaign: a prior active campaign row survives unchanged (so two campaigns
are simultaneously active), the new campaign is active with a fresh greater
id, and `get_active_campaign` afterwards returns the newer one. -/
theorem create_campaign_preserves_prior_active (st : DBState)
    (hlt : ∀ c ∈ st.campaigns, c.id < st.nextCampaignId)
    (c₀ : Campaign) (hmem : c₀ ∈ st.campaigns) (hact : c₀.is_active = true)
    (title : String) (amt : Int) (creator : Int) :
    c₀ ∈ ((create_campaign st title amt creator).2.2.2).campaigns ∧
    c₀.is_active = true ∧
    (create_campaign st title amt creator).1.is_active = true ∧
    (create_campaign st title amt creator).1.id ≠ c₀.id ∧
    get_active_campaign ((create_campaign st title amt creator).2.2.2) =
      some (create_campaign st title amt creator).1 := by
  refine ⟨?_, hact, create_campaign_camp_active st title amt creator, ?_, ?_⟩
  · rw [create_campaign_state_campaigns]
    exact List.mem_append_left _ hmem
  · rw [create_campaign_camp_id]
    intro h
    exact absurd (h ▸ hlt c₀ hmem) (lt_irrefl _)
  · unfold get_active_campaign
    rw [create_campaign_state_campaigns, List.filter_append,
        List.filter_cons_of_pos (create_campaign_camp_active st title amt creator),
        List.filter_nil]
    apply foldl_newerActive_append_max
    intro d hd
    rw [create_campaign_camp_id]
    exact hlt d (List.mem_filter.mp hd).1

/-- Witness for C3: creating a campaign over `stOneActive` (campaign 1
active) leaves campaign 1 active while the new campaign 2 is also active
and is the one reported. -/
theorem create_campaign_preserves_prior_active_witness :
    campW1 ∈ ((create_campaign stOneActive "z" 8 9).2.2.2).campaigns ∧
    campW1.is_active = true ∧
    (create_campaign stOneActive "z" 8 9).1.is_active = true ∧
    (create_campaign stOneActive "z" 8 9).1.id ≠ campW1.id ∧
    get_active_campaign ((create_campaign stOneActive "z" 8 9).2.2.2) =
      some (create_campaign stOneActive "z" 8 9).1 :=
  create_campaign_preserves_prior_active stOneActive (by decide) campW1
    (by decide) (by decide) "z" 8 9

/-- Unfolding equation: the campaigns table after a successful close. -/
theorem close_campaigns_eq {st : DBState} {top : Campaign}
    (htop : get_active_campaign st = some top) :
    ((close_active_campaign st).2).campaigns =
      st.campaigns.map (fun c =>
        if c.id == top.id then { c with is_active := false } else c) := by
  unfold close_active_campaign
  rw [htop]

/-- C8: in a state with several active campaigns, one `close_active_campaign`
call deactivates only the newest active campaign (the one reported by
`get_active_campaign`): any other active campaign row survives unchanged and
still active, and `get_active_campaign` afterwards returns the newest of the
remaining active campaigns rather than none. -/
theorem close_active_campaign_multi (st : DBState)
    (hids : (st.campaigns.map (fun c => c.id)).Nodup)
    (top c₁ : Campaign)
    (htop : get_active_campaign st = some top)
    (hc₁ : c₁ ∈ st.campaigns) (hact : c₁.is_active = true) (hne : c₁ ≠ top) :
    (close_active_campaign st).1 = true ∧
    c₁ ∈ ((close_active_campaign st).2).campaigns ∧
    (∀ c' ∈ ((close_active_campaign st).2).campaigns, c'.id = top.id →
      c'.is_active = false) ∧
    (∃ c', get_active_campaign ((close_active_campaign st).2) = some c' ∧
      c' ∈ st.campaigns ∧ c'.is_active = true ∧ c' ≠ top ∧
      ∀ d ∈ st.campaigns, d.is_active = true → d ≠ top → d.id ≤ c'.id) := by
  obtain ⟨htopmem, _⟩ := get_active_campaign_mem htop
  have hidne : c₁.id ≠ top.id := fun hid =>
    hne (nodup_key_inj (fun c => c.id) hids c₁ hc₁ top htopmem hid)
  have hbe : (c₁.id == top.id) = false := beq_eq_false_iff_ne.mpr hidne
  have hc₁L : c₁ ∈ st.campaigns.filter
      (fun c => c.is_active && !(c.id == top.id)) := by
    refine List.mem_filter.mpr ⟨hc₁, ?_⟩
    rw [hact, hbe]
    rfl
  refine ⟨?_, ?_, ?_, ?_⟩
  · unfold close_active_campaign
    rw [htop]
  · rw [close_campaigns_eq htop]
    refine List.mem_map.mpr ⟨c₁, hc₁, ?_⟩
    rw [if_neg (by rw [hbe]; exact Bool.false_ne_true)]
  · intro c' hc' hid
    rw [close_campaigns_eq htop] at hc'
    obtain ⟨d, hd, rfl⟩ := List.mem_map.mp hc'
    by_cases hdbe : (d.id == top.id) = true
    · rw [if_pos hdbe]
    · rw [if_neg hdbe] at hid ⊢
      exact absurd (beq_iff_eq.mpr hid) hdbe
  · rcases hres : get_active_campaign ((close_active_campaign st).2) with _ | c'
    · exfalso
      unfold get_active_campaign at hres
      rw [close_active_campaign_filter st htop] at hres
      have := (foldl_newerActive_ne_none _ none hres).2
      rw [this] at hc₁L
      exact List.not_mem_nil c₁ hc₁L
    · have hmem : c' ∈ st.campaigns.filter
          (fun c => c.is_active && !(c.id == top.id)) := by
        unfold get_active_campaign at hres
        rw [close_active_campaign_filter st htop] at hres
        rcases foldl_newerActive_mem _ none c' hres with h' | h'
        · exact absurd h' (by simp)
        · exact h'
      obtain ⟨hcmem, hcprop⟩ := List.mem_filter.mp hmem
      obtain ⟨hcact, hcne⟩ := Bool.and_eq_true_iff.mp hcprop
      have hcnetop : c' ≠ top := by
        intro hc
        rw [hc] at hcne
        simp at hcne
      refine ⟨c', rfl, hcmem, hcact, hcnetop, ?_⟩
      intro d hd hdact hdne
      have hdidne : d.id ≠ top.id := fun hid =>
        hdne (nodup_key_inj (fun c => c.id) hids d hd top htopmem hid)
      have hdL : d ∈ st.campaigns.filter
          (fun c => c.is_active && !(c.id == top.id)) := by
        refine List.mem_filter.mpr ⟨hd, ?_⟩
        rw [hdact, beq_eq_false_iff_ne.mpr hdidne]
        rfl
      unfold get_active_campaign at hres
      rw [close_active_campaign_filter st htop] at hres
      exact (foldl_newerActive_le _ none c' hres).2 d hdL

/-- Witness for C8: in `stTwoActive` (campaigns 1 and 2 both active) the
close call deactivates campaign 2 only and campaign 1 is then reported. -/
theorem close_active_campaign_multi_witness :
    (close_active_campaign stTwoActive).1 = true ∧
    campW1 ∈ ((close_active_campaign stTwoActive).2).campaigns ∧
    (∀ c' ∈ ((close_active_campaign stTwoActive).2).campaigns, c'.id = campW2.id →
      c'.is_active = false) ∧
    (∃ c', get_active_campaign ((close_active_campaign stTwoActive).2) = some c' ∧
      c' ∈ stTwoActive.campaigns ∧ c'.is_active = true ∧ c' ≠ campW2 ∧
      ∀ d ∈ stTwoActive.campaigns, d.is_active = true → d ≠ campW2 →
        d.id ≤ c'.id) :=
  close_active_campaign_multi stTwoActive (by decide) campW2 campW1
    (by decide) (by decide) (by decide) (by decide)

/-- Closing with no active campaign leaves the state untouched. -/
theorem close_active_campaign_none_state {st : DBState}
    (h : get_active_campaign st = none) :
    (close_active_campaign st).2 = st := by
  unfold close_active_campaign
  rw [h]

/-- A list of length at most one containing `a` is `[a]`. -/
theorem eq_singleton_of_length_le_one {l : List α} {a : α}
    (hlen : l.length ≤ 1) (ha : a ∈ l) : l = [a] := by
  match l with
  | [] => cases ha
  | [x] =>
    rw [List.mem_singleton.mp ha]
  | x :: y :: t => simp at hlen

/-- C2: assuming the single-active-campaign invariant (no concurrent
creation), once `close_active_campaign` returns `true`: the reopened lookup
`get_active_campaign` yields `none`; a subsequent `create_campaign` produces
a new active campaign which becomes the reported one while every previously
active (now closed) campaign's row stays inactive; and no repository
operation ever flips an inactive campaign's flag back to true. -/
theorem close_active_campaign_lifecycle (st : DBState)
    (hids : (st.campaigns.map (fun c => c.id)).Nodup)
    (hlt : ∀ c ∈ st.campaigns, c.id < st.nextCampaignId)
    (hone : (st.campaigns.filter (fun c => c.is_active)).length ≤ 1)
    (hclosed : (close_active_campaign st).1 = true) :
    get_active_campaign ((close_active_campaign st).2) = none ∧
    (∀ (title : String) (amt : Int) (creator : Int),
      (create_campaign ((close_active_campaign st).2) title amt creator).1.is_active
          = true ∧
      get_active_campaign
          ((create_campaign ((close_active_campaign st).2) title amt creator).2.2.2)
        = some (create_campaign ((close_active_campaign st).2) title amt creator).1 ∧
      ∀ c ∈ st.campaigns, c.is_active = true →
        ∀ c' ∈ ((create_campaign ((close_active_campaign st).2) title amt
            creator).2.2.2).campaigns,
          c'.id = c.id → c'.is_active = false) ∧
    (∀ (tg : Int) (un fn : Option String) (fin : List Int),
      preservesInactive (fun s => (upsert_user s tg un fn fin).2)) ∧
    (∀ (title : String) (amt : Int) (creator : Int),
      preservesInactive (fun s => (create_campaign s title amt creator).2.2.2)) ∧
    (∀ (cid : Nat) (uid : Int) (mark : Bool) (now : Nat),
      preservesInactive (fun s => (toggle_payment s cid uid mark now).2)) ∧
    preservesInactive (fun s => (close_active_campaign s).2) := by
  obtain ⟨top, htop⟩ := close_active_campaign_true hclosed
  obtain ⟨htopmem, htopact⟩ := get_active_campaign_mem htop
  have hfilterone : st.campaigns.filter (fun c => c.is_active) = [top] :=
    eq_singleton_of_length_le_one hone (List.mem_filter.mpr ⟨htopmem, htopact⟩)
  have hempty : st.campaigns.filter (fun c => c.is_active && !(c.id == top.id))
      = [] := by
    rw [List.filter_eq_nil_iff]
    intro c hc hp
    obtain ⟨h1, h2⟩ := Bool.and_eq_true_iff.mp hp
    have hcf : c ∈ st.campaigns.filter (fun c => c.is_active) :=
      List.mem_filter.mpr ⟨hc, h1⟩
    rw [hfilterone] at hcf
    rw [List.mem_singleton.mp hcf] at h2
    simp at h2
  have hempty1 : ((close_active_campaign st).2).campaigns.filter
      (fun c => c.is_active) = [] := by
    rw [close_active_campaign_filter st htop]
    exact hempty
  refine ⟨?_, ?_, ?_, ?_, ?_, ?_⟩
  · unfold get_active_campaign
    rw [hempty1]
    rfl
  · intro title amt creator
    refine ⟨create_campaign_camp_active _ title amt creator, ?_, ?_⟩
    · unfold get_active_campaign
      rw [create_campaign_state_campaigns, List.filter_append, hempty1,
          List.filter_cons_of_pos (create_campaign_camp_active _ title amt creator),
          List.filter_nil, List.nil_append]
      rfl
    · intro c hc hcact c' hc' hid
      have hctop : c = top := by
        have : c ∈ st.campaigns.filter (fun c => c.is_active) :=
          List.mem_filter.mpr ⟨hc, hcact⟩
        rw [hfilterone] at this
        exact List.mem_singleton.mp this
      subst hctop
      rw [create_campaign_state_campaigns] at hc'
      rcases List.mem_append.mp hc' with hcl | hcr
      · rw [close_campaigns_eq htop] at hcl
        obtain ⟨d, hd, rfl⟩ := List.mem_map.mp hcl
        by_cases hdbe : (d.id == c.id) = true
        · rw [if_pos hdbe]
        · rw [if_neg hdbe] at hid ⊢
          exact absurd (beq_iff_eq.mpr hid) hdbe
      · exfalso
        rw [List.mem_singleton.mp hcr, create_campaign_camp_id] at hid
        have hnext : ((close_active_campaign st).2).nextCampaignId
            = st.nextCampaignId := by
          unfold close_active_campaign
          rw [htop]
        rw [hnext] at hid
        exact absurd (hid ▸ hlt c hc) (lt_irrefl _)
  · intro tg un fn fin s hsids hslt c hc hcact c' hc' hid
    rw [upsert_user_campaigns] at hc'
    rw [nodup_key_inj (fun c => c.id) hsids c' hc' c hc hid]
    exact hcact
  · intro title amt creator s hsids hslt c hc hcact c' hc' hid
    rw [create_campaign_state_campaigns] at hc'
    rcases List.mem_append.mp hc' with hcl | hcr
    · rw [nodup_key_inj (fun c => c.id) hsids c' hcl c hc hid]
      exact hcact
    · exfalso
      rw [List.mem_singleton.mp hcr, create_campaign_camp_id] at hid
      exact absurd (hid ▸ hslt c hc) (lt_irrefl _)
  · intro cid uid mark now s hsids hslt c hc hcact c' hc' hid
    rw [toggle_payment_campaigns] at hc'
    rw [nodup_key_inj (fun c => c.id) hsids c' hc' c hc hid]
    exact hcact
  · intro s hsids hslt c hc hcact c' hc' hid
    have hc'' : c' ∈ ((close_active_campaign s).2).campaigns := hc'
    rcases hg : get_active_campaign s with _ | t
    · rw [close_active_campaign_none_state hg] at hc''
      rw [nodup_key_inj (fun c => c.id) hsids c' hc'' c hc hid]
      exact hcact
    · rw [close_campaigns_eq hg] at hc''
      obtain ⟨d, hd, rfl⟩ := List.mem_map.mp hc''
      by_cases hdbe : (d.id == t.id) = true
      · rw [if_pos hdbe]
      · rw [if_neg hdbe] at hid ⊢
        rw [nodup_key_inj (fun c => c.id) hsids d hd c hc hid]
        exact hcact

/-- Witness for C2: closing the single active campaign of `stOneActive`
leaves no active campaign. -/
theorem close_active_campaign_lifecycle_witness :
    get_active_campaign ((close_active_campaign stOneActive).2) = none :=
  (close_active_campaign_lifecycle stOneActive (by decide) (by decide)
    (by decide) (by decide)).1
